import Mathlib

/-!
Verification of the docs-template-update tool (docs-template-update.go).

The development shallow-embeds the placeholder rewriter
(`applyDataStreamPlaceholders`), the data-stream discovery
(`findDataStreams`) and the patch generator (`generatePatch`) as
executable Lean functions over `List Char`, and proves the spec's claims
about them.  Strings are modelled as lists of characters; Go's regexp
calls are modelled by an explicit scanner with the same semantics on the
two concrete patterns the source uses.
-/

namespace DocsTemplateUpdate

/-- Characters of a string literal, used to write concrete documents. -/
def strL (s : String) : List Char := s.data

/-- Go regexp's Perl class `\s`, which matches exactly the characters
tab, newline, form feed, carriage return and space. -/
def isGoSpace (c : Char) : Bool :=
  c == '\t' || c == '\n' || c == '\x0c' || c == '\r' || c == ' '

/-- Keyword of the generic fields placeholder pattern (source line 135). -/
def fieldsKw : List Char := strL "fields"

/-- Keyword of the generic event placeholder pattern (source line 136). -/
def eventKw : List Char := strL "event"

/-- The generic entity name appearing in both placeholder patterns. -/
def dsn : List Char := strL "data_stream_name"

/-- The quoted name and closing braces of a placeholder: `"name"\x7d\x7d`. -/
def mkTail (name : List Char) : List Char :=
  '\x22' :: (name ++ ('\x22' :: '\x7d' :: '\x7d' :: []))

/-- A rendered placeholder `\x7b\x7bkw "name"\x7d\x7d` with a single space,
exactly the string the source produces with `fmt.Sprintf` (lines 144, 147,
160, 163, 174, 184). -/
def renderPH (kw name : List Char) : List Char :=
  '\x7b' :: '\x7b' :: (kw ++ (' ' :: mkTail name))

/-- Drop `p` from the front of `s`; `none` when `p` is not a prefix of `s`. -/
def dropPrefixCL : List Char → List Char → Option (List Char)
  | [], s => some s
  | _ :: _, [] => none
  | p :: ps, c :: cs => if p = c then dropPrefixCL ps cs else none

/-- Consume one or more Go-whitespace characters (the regex `\s+`, greedy;
the run is maximal because the pattern continues with `"`). -/
def ws1 : List Char → Option (List Char)
  | [] => none
  | c :: cs => if isGoSpace c then some (cs.dropWhile isGoSpace) else none

/-- Structural matcher for the pattern `\{\{kw\s+"name"\}\}` at the head of
`s`; on success returns the text after the match.  With `name := dsn` this
is the compiled regex of source lines 135-136. -/
def tryMatchName (kw name s : List Char) : Option (List Char) :=
  match dropPrefixCL ('\x7b' :: '\x7b' :: kw) s with
  | none => none
  | some r1 =>
    match ws1 r1 with
    | none => none
    | some r2 => dropPrefixCL (mkTail name) r2

/-- Fuelled body of the replace-all scanner; fuel is an upper bound on the
input length, so the `0, s => s` arm is never reached in `replaceTok`. -/
def replaceTokF (kw repl : List Char) : Nat → List Char → List Char
  | _, [] => []
  | 0, s => s
  | f + 1, c :: cs =>
    match tryMatchName kw dsn (c :: cs) with
    | some r => repl ++ replaceTokF kw repl f r
    | none => c :: replaceTokF kw repl f cs

/-- Go `regexp.ReplaceAllString` for the generic placeholder pattern with
keyword `kw`: replace each leftmost, non-overlapping match with `repl`,
scanning left to right (source lines 144, 147, 160, 163). -/
def replaceTok (kw repl s : List Char) : List Char := replaceTokF kw repl s.length s

/-- The single-data-stream branch of `applyDataStreamPlaceholders`
(source lines 142-149), also reused verbatim as the multi-stream fallback
(lines 160-164): replace all generic fields placeholders, then all generic
event placeholders, with the placeholders naming `ds`. -/
def rewriteSingle (ds content : List Char) : List Char :=
  replaceTok eventKw (renderPH eventKw ds) (replaceTok fieldsKw (renderPH fieldsKw ds) content)

/-- First occurrence of `sep` in the input: returns the text before the
occurrence and the text after it, or `none` when `sep` does not occur. -/
def splitFirst (sep : List Char) : List Char → Option (List Char × List Char)
  | [] => none
  | c :: cs =>
    match dropPrefixCL sep (c :: cs) with
    | some rest => some ([], rest)
    | none =>
      match splitFirst sep cs with
      | some (b, a) => some (c :: b, a)
      | none => none

/-- Fuelled body of `splitSep`. -/
def splitSepF (sep : List Char) : Nat → List Char → List (List Char)
  | 0, s => [s]
  | f + 1, s =>
    match splitFirst sep s with
    | none => [s]
    | some (b, a) => b :: splitSepF sep f a

/-- Go `strings.Split` for a nonempty separator: cut the input at every
non-overlapping occurrence of `sep`, leftmost first (source lines 152,
154, 178). -/
def splitSep (sep s : List Char) : List (List Char) := splitSepF sep (s.length + 1) s

/-- The preferred section header (source line 152). -/
def ecsHeader : List Char := strL "### ECS field Reference"

/-- The fallback section header (source lines 154, 178). -/
def sampleHeader : List Char := strL "### Sample Event"

/-- Two newlines, the separator the source appends after headers and blocks. -/
def nl2 : List Char := strL "\n\n"

/-- Per-entity fields sub-block `#### ds\n\n\x7b\x7bfields "ds"\x7d\x7d\n\n`
(source line 174). -/
def fieldsBlock (ds : List Char) : List Char :=
  strL "#### " ++ ds ++ nl2 ++ renderPH fieldsKw ds ++ nl2

/-- Per-entity event sub-block `#### ds\n\n\x7b\x7bevent "ds"\x7d\x7d\n\n`
(source line 184). -/
def eventBlock (ds : List Char) : List Char :=
  strL "#### " ++ ds ++ nl2 ++ renderPH eventKw ds ++ nl2

/-- All fields sub-blocks, one per data stream, in order (source lines 173-175). -/
def fieldsSection (dataStreams : List (List Char)) : List Char :=
  (dataStreams.map fieldsBlock).flatten

/-- All event sub-blocks, one per data stream, in order (source lines 183-185). -/
def eventSection (dataStreams : List (List Char)) : List Char :=
  (dataStreams.map eventBlock).flatten

/-- Source lines 177-191: split the post-header remainder on the sample
header; on an exact two-way split re-emit the sample header and the event
sub-blocks followed by the text after the original header, otherwise append
the remainder unmodified. -/
def multiTail (dataStreams : List (List Char)) (s1 : List Char) : List Char :=
  match splitSep sampleHeader s1 with
  | [_, t1] => (sampleHeader ++ nl2) ++ (eventSection dataStreams ++ t1)
  | _ => s1

/-- Source lines 168-191: reassembled output for the multi-stream path when
the section split produced exactly two parts `s0`, `s1`. -/
def multiBody (dataStreams : List (List Char)) (s0 s1 : List Char) : List Char :=
  s0 ++ (ecsHeader ++ nl2) ++ (fieldsSection dataStreams ++ multiTail dataStreams s1)

/-- The placeholder rewriter, `applyDataStreamPlaceholders` of source lines
129-194: identity on an empty entity list; plain replacement for a single
entity; for two or more entities, split on the preferred header, then on the
fallback header, and either reassemble per-entity sections or degrade to the
single-entity behaviour on the first entity. -/
def applyDataStreamPlaceholders (content : List Char) (dataStreams : List (List Char)) : List Char :=
  match dataStreams with
  | [] => content
  | [ds0] => rewriteSingle ds0 content
  | ds0 :: ds1 :: dsRest =>
    match (if (splitSep ecsHeader content).length = 2 then splitSep ecsHeader content
           else splitSep sampleHeader content) with
    | [s0, s1] => multiBody (ds0 :: ds1 :: dsRest) s0 s1
    | _ => rewriteSingle ds0 content

/-- Fuelled body of `rewriteSingleSpec`. -/
def rewriteSingleSpecF (e : List Char) : Nat → List Char → List Char
  | _, [] => []
  | 0, s => s
  | f + 1, c :: cs =>
    match tryMatchName fieldsKw dsn (c :: cs) with
    | some r => renderPH fieldsKw e ++ rewriteSingleSpecF e f r
    | none =>
      match tryMatchName eventKw dsn (c :: cs) with
      | some r => renderPH eventKw e ++ rewriteSingleSpecF e f r
      | none => c :: rewriteSingleSpecF e f cs

/-- Specification-side single-entity rewrite, following the spec's words
(spec 4.2 and 8): one left-to-right pass over the document replacing every
structurally matched generic fields placeholder with the fields placeholder
naming `e` and every generic event placeholder with the event placeholder
naming `e`, copying all other characters unchanged.  Written for the
refinement claim about the single-entity behaviour; to be compared with
`rewriteSingle`, which is translated from the source. -/
def rewriteSingleSpec (e s : List Char) : List Char := rewriteSingleSpecF e s.length s

/-- Characters allowed in an entity name; the spec's data model (spec 3)
takes entity names to be identifier strings (directory names such as
`generic` or `threat-intel.indicator`). -/
def isIdentChar (c : Char) : Bool := c.isAlphanum || c == '_' || c == '-' || c == '.'

/-- An `EntityName` per the spec's data model: a non-empty identifier string. -/
def isEntityName (e : List Char) : Prop := e ≠ [] ∧ ∀ c ∈ e, isIdentChar c = true

instance (e : List Char) : Decidable (isEntityName e) := by
  unfold isEntityName; infer_instance

/-- One entry of a directory listing, as `os.ReadDir` yields it. -/
structure DirEntry where
  name : List Char
  isDir : Bool
deriving DecidableEq

/-- The ambient filesystem state `findDataStreams` observes: whether the
`data_stream` subdirectory exists (`os.Stat`, source line 101), and the
outcome of listing it (`os.ReadDir`, source line 109). -/
structure PkgFS where
  statExists : Bool
  readDirResult : Except (List Char) (List DirEntry)

/-- The collection loop of source lines 114-119: keep the names of the
directory entries, in listing order, skipping plain files. -/
def collectDirs : List DirEntry → List (List Char)
  | [] => []
  | e :: rest => if e.isDir then e.name :: collectDirs rest else collectDirs rest

/-- Data-stream discovery, `findDataStreams` of source lines 97-126: absent
subdirectory gives an empty list and no error; a failed listing is an error
wrapping the cause; a successful listing gives the subdirectory names in
listing order. -/
def findDataStreams (fs : PkgFS) : Except (List Char) (List (List Char)) :=
  if fs.statExists then
    match fs.readDirResult with
    | .error msg => .error (strL "failed to read data_stream directory: " ++ msg)
    | .ok entries => .ok (collectDirs entries)
  else
    .ok []

/-- Modelled from the spec: the final path component used as the diff label
(spec 4.3, `a/<basename(path)>`); the Go side calls `filepath.Base`, which
is standard-library code not present under the sources. -/
def baseName (p : List Char) : List Char :=
  if p = [] then strL "."
  else
    match (p.reverse.dropWhile (fun c => c == '/')) with
    | [] => strL "/"
    | rest => (rest.takeWhile (fun c => !(c == '/'))).reverse

/-- Decimal digits of a number, for rendering hunk headers. -/
def natChars (n : Nat) : List Char := Nat.toDigits 10 n

/-- Modelled from the spec: `difflib.GetUnifiedDiffString` of the external
go-difflib library, which is not present under the sources.  Per spec 4.3
it returns the empty string when the two line sequences are equal, and
otherwise a unified-diff text block labelled with the two file names; the
inequal case here renders one whole-file hunk. -/
def getUnifiedDiffString (fromFile toFile : List Char) (a b : List (List Char))
    (_ctx : Nat) : List Char :=
  if a = b then []
  else
    strL "--- " ++ fromFile ++ ('\n' :: (strL "+++ " ++ toFile ++ ('\n' ::
      (strL "@@ -1," ++ natChars a.length ++ strL " +1," ++ natChars b.length ++ strL " @@\n" ++
        ((a.map (fun l => '-' :: (l ++ ['\n']))).flatten ++
         (b.map (fun l => '+' :: (l ++ ['\n']))).flatten)))))

/-- The patch generator, `generatePatch` of source lines 369-382: split both
documents into lines on the newline character and take the unified diff with
context 3, labelling the sides `a/` and `b/` plus the path's base name. -/
def generatePatch (filePath original updated : List Char) : List Char :=
  getUnifiedDiffString (strL "a/" ++ baseName filePath) (strL "b/" ++ baseName filePath)
    (splitSep (strL "\n") original) (splitSep (strL "\n") updated) 3

/-! Basic facts about the matcher components. -/

theorem dropPrefixCL_eq_some {p s r : List Char} :
    dropPrefixCL p s = some r ↔ s = p ++ r := by
  induction p generalizing s with
  | nil => simp [dropPrefixCL, eq_comm]
  | cons p ps ih =>
    cases s with
    | nil => simp [dropPrefixCL]
    | cons c cs =>
      rcases eq_or_ne p c with h | h
      · subst h; simp [dropPrefixCL, ih]
      · simp only [dropPrefixCL, if_neg h, List.cons_append, List.cons.injEq]
        constructor
        · intro hx; cases hx
        · rintro ⟨hx, -⟩; exact absurd hx.symm h

theorem dropPrefixCL_append (p r : List Char) : dropPrefixCL p (p ++ r) = some r :=
  dropPrefixCL_eq_some.mpr rfl

theorem dropWhile_append_all {p : Char → Bool} {w : List Char}
    (h : ∀ c ∈ w, p c = true) (z : List Char) :
    (w ++ z).dropWhile p = z.dropWhile p := by
  induction w with
  | nil => rfl
  | cons c cs ih =>
    rw [List.cons_append, List.dropWhile_cons, if_pos (h c (List.mem_cons_self c cs))]
    exact ih fun x hx => h x (List.mem_cons_of_mem c hx)

theorem ws1_append {w : List Char} (hne : w ≠ []) (hsp : ∀ c ∈ w, isGoSpace c = true)
    {z : List Char} (hz : ∀ c, z.head? = some c → isGoSpace c = false) :
    ws1 (w ++ z) = some z := by
  cases w with
  | nil => exact absurd rfl hne
  | cons c cs =>
    rw [List.cons_append]
    show (if isGoSpace c then some ((cs ++ z).dropWhile isGoSpace) else none) = some z
    rw [if_pos (hsp c (List.mem_cons_self c cs))]
    rw [dropWhile_append_all fun x hx => hsp x (List.mem_cons_of_mem c hx)]
    cases z with
    | nil => rfl
    | cons z0 zs => rw [List.dropWhile_cons, if_neg (by simp [hz z0 rfl])]

theorem head_mkTail_not_space (name : List Char) :
    ∀ c, (mkTail name ++ r).head? = some c → isGoSpace c = false := by
  intro c hc
  simp only [mkTail, List.cons_append, List.head?_cons, Option.some.injEq] at hc
  subst hc; decide

theorem tryMatchName_token {kw name : List Char} {w : List Char} (hne : w ≠ [])
    (hsp : ∀ c ∈ w, isGoSpace c = true) (r : List Char) :
    tryMatchName kw name ('\x7b' :: '\x7b' :: (kw ++ (w ++ (mkTail name ++ r)))) = some r := by
  have hshape : ('\x7b' :: '\x7b' :: (kw ++ (w ++ (mkTail name ++ r)))) =
      ('\x7b' :: '\x7b' :: kw) ++ (w ++ (mkTail name ++ r)) := by simp
  simp only [tryMatchName, hshape, dropPrefixCL_append,
    ws1_append hne hsp (head_mkTail_not_space name)]

theorem tryMatchName_some {kw name s r : List Char} (h : tryMatchName kw name s = some r) :
    ∃ w, w ≠ [] ∧ (∀ c ∈ w, isGoSpace c = true) ∧
      s = '\x7b' :: '\x7b' :: (kw ++ (w ++ (mkTail name ++ r))) := by
  unfold tryMatchName at h
  cases h1 : dropPrefixCL ('\x7b' :: '\x7b' :: kw) s with
  | none => simp only [h1] at h; cases h
  | some r1 =>
    simp only [h1] at h
    cases h2 : ws1 r1 with
    | none => simp only [h2] at h; cases h
    | some r2 =>
      simp only [h2] at h
      have hs : s = ('\x7b' :: '\x7b' :: kw) ++ r1 := dropPrefixCL_eq_some.mp h1
      have hr2 : r2 = mkTail name ++ r := dropPrefixCL_eq_some.mp h
      cases r1 with
      | nil => exact absurd h2 (by simp [ws1])
      | cons c cs =>
        by_cases hc : isGoSpace c
        · have hdrop : r2 = cs.dropWhile isGoSpace := by
            have : ws1 (c :: cs) = some (cs.dropWhile isGoSpace) := by simp [ws1, hc]
            rw [this] at h2; exact (Option.some.injEq _ _ ▸ h2).symm
          refine ⟨c :: cs.takeWhile isGoSpace, by simp, ?_, ?_⟩
          · intro x hx
            rcases List.mem_cons.mp hx with hx | hx
            · subst hx; exact hc
            · exact List.mem_takeWhile_imp hx
          · rw [hs, ← hr2, hdrop]
            simp only [List.cons_append, List.append_assoc, List.cons.injEq, true_and]
            rw [List.takeWhile_append_dropWhile]
        · exact absurd h2 (by simp [ws1, hc])

theorem tryMatchName_some_length {kw name s r : List Char}
    (h : tryMatchName kw name s = some r) : r.length < s.length := by
  obtain ⟨w, hne, -, rfl⟩ := tryMatchName_some h
  have : 0 < w.length := List.length_pos.mpr hne
  simp only [List.length_cons, List.length_append, mkTail]
  omega

theorem tryMatchName_none_head {kw name : List Char} {c : Char} (hc : c ≠ '\x7b')
    (t : List Char) : tryMatchName kw name (c :: t) = none := by
  unfold tryMatchName
  rw [show dropPrefixCL ('\x7b' :: '\x7b' :: kw) (c :: t) = none by
    show (if '\x7b' = c then dropPrefixCL ('\x7b' :: kw) t else none) = none
    rw [if_neg fun hx => hc hx.symm]]

theorem tryMatchName_none_head2 {kw name : List Char} {c : Char} (hc : c ≠ '\x7b')
    (t : List Char) : tryMatchName kw name ('\x7b' :: c :: t) = none := by
  unfold tryMatchName
  rw [show dropPrefixCL ('\x7b' :: '\x7b' :: kw) ('\x7b' :: c :: t) = none by
    show (if '\x7b' = '\x7b' then dropPrefixCL ('\x7b' :: kw) (c :: t) else none) = none
    rw [if_pos rfl]
    show (if '\x7b' = c then dropPrefixCL kw t else none) = none
    rw [if_neg fun hx => hc hx.symm]]

theorem tryMatch_event_fieldsHead (name t : List Char) :
    tryMatchName eventKw name ('\x7b' :: '\x7b' :: 'f' :: t) = none := by
  unfold tryMatchName
  rw [show dropPrefixCL ('\x7b' :: '\x7b' :: eventKw) ('\x7b' :: '\x7b' :: 'f' :: t) = none by
    show dropPrefixCL ('\x7b' :: '\x7b' :: ('e' :: 'v' :: 'e' :: 'n' :: 't' :: [])) _ = none
    show (if '\x7b' = '\x7b' then _ else none : Option (List Char)) = none
    rw [if_pos rfl]
    show (if '\x7b' = '\x7b' then _ else none : Option (List Char)) = none
    rw [if_pos rfl]
    show (if 'e' = 'f' then _ else none : Option (List Char)) = none
    rw [if_neg (by decide)]]

theorem tryMatch_fields_eventHead (name t : List Char) :
    tryMatchName fieldsKw name ('\x7b' :: '\x7b' :: 'e' :: t) = none := by
  unfold tryMatchName
  rw [show dropPrefixCL ('\x7b' :: '\x7b' :: fieldsKw) ('\x7b' :: '\x7b' :: 'e' :: t) = none by
    show dropPrefixCL ('\x7b' :: '\x7b' :: ('f' :: 'i' :: 'e' :: 'l' :: 'd' :: 's' :: [])) _ = none
    show (if '\x7b' = '\x7b' then _ else none : Option (List Char)) = none
    rw [if_pos rfl]
    show (if '\x7b' = '\x7b' then _ else none : Option (List Char)) = none
    rw [if_pos rfl]
    show (if 'f' = 'e' then _ else none : Option (List Char)) = none
    rw [if_neg (by decide)]]

/-! Unfolding equations for the fuelled scanners. -/

theorem replaceTokF_congr {kw repl : List Char} :
    ∀ (n f g : Nat) (s : List Char), s.length ≤ n → s.length ≤ f → s.length ≤ g →
      replaceTokF kw repl f s = replaceTokF kw repl g s := by
  intro n
  induction n with
  | zero =>
    intro f g s hs _ _
    have : s = [] := List.eq_nil_of_length_eq_zero (Nat.le_zero.mp hs)
    subst this
    cases f <;> cases g <;> rfl
  | succ n ih =>
    intro f g s hs hf hg
    cases s with
    | nil => cases f <;> cases g <;> rfl
    | cons c cs =>
      cases f with
      | zero => simp at hf
      | succ f' =>
        cases g with
        | zero => simp at hg
        | succ g' =>
          show (match tryMatchName kw dsn (c :: cs) with
                | some r => repl ++ replaceTokF kw repl f' r
                | none => c :: replaceTokF kw repl f' cs) =
               (match tryMatchName kw dsn (c :: cs) with
                | some r => repl ++ replaceTokF kw repl g' r
                | none => c :: replaceTokF kw repl g' cs)
          cases hm : tryMatchName kw dsn (c :: cs) with
          | some r =>
            have hlt : r.length < cs.length + 1 := by
              simpa using tryMatchName_some_length hm
            simp only [List.length_cons] at hs hf hg
            simp only [hm]
            rw [ih f' g' r (by omega) (by omega) (by omega)]
          | none =>
            simp only [List.length_cons] at hs hf hg
            simp only [hm]
            rw [ih f' g' cs (by omega) (by omega) (by omega)]

theorem replaceTok_nil (kw repl : List Char) : replaceTok kw repl [] = [] := rfl

theorem replaceTok_cons_some {kw repl : List Char} {c : Char} {cs r : List Char}
    (h : tryMatchName kw dsn (c :: cs) = some r) :
    replaceTok kw repl (c :: cs) = repl ++ replaceTok kw repl r := by
  have hlt : r.length < cs.length + 1 := by simpa using tryMatchName_some_length h
  show replaceTokF kw repl (c :: cs).length (c :: cs) = _
  rw [List.length_cons]
  show (match tryMatchName kw dsn (c :: cs) with
        | some r => repl ++ replaceTokF kw repl cs.length r
        | none => c :: replaceTokF kw repl cs.length cs) = _
  simp only [h]
  rw [replaceTokF_congr r.length cs.length r.length r le_rfl (by omega) le_rfl]
  rfl

theorem replaceTok_cons_none {kw repl : List Char} {c : Char} {cs : List Char}
    (h : tryMatchName kw dsn (c :: cs) = none) :
    replaceTok kw repl (c :: cs) = c :: replaceTok kw repl cs := by
  show replaceTokF kw repl (c :: cs).length (c :: cs) = _
  rw [List.length_cons]
  show (match tryMatchName kw dsn (c :: cs) with
        | some r => repl ++ replaceTokF kw repl cs.length r
        | none => c :: replaceTokF kw repl cs.length cs) = _
  simp only [h]
  rfl

theorem rewriteSingleSpecF_congr {e : List Char} :
    ∀ (n f g : Nat) (s : List Char), s.length ≤ n → s.length ≤ f → s.length ≤ g →
      rewriteSingleSpecF e f s = rewriteSingleSpecF e g s := by
  intro n
  induction n with
  | zero =>
    intro f g s hs _ _
    have : s = [] := List.eq_nil_of_length_eq_zero (Nat.le_zero.mp hs)
    subst this
    cases f <;> cases g <;> rfl
  | succ n ih =>
    intro f g s hs hf hg
    cases s with
    | nil => cases f <;> cases g <;> rfl
    | cons c cs =>
      cases f with
      | zero => simp at hf
      | succ f' =>
        cases g with
        | zero => simp at hg
        | succ g' =>
          show (match tryMatchName fieldsKw dsn (c :: cs) with
                | some r => renderPH fieldsKw e ++ rewriteSingleSpecF e f' r
                | none =>
                  match tryMatchName eventKw dsn (c :: cs) with
                  | some r => renderPH eventKw e ++ rewriteSingleSpecF e f' r
                  | none => c :: rewriteSingleSpecF e f' cs) =
               (match tryMatchName fieldsKw dsn (c :: cs) with
                | some r => renderPH fieldsKw e ++ rewriteSingleSpecF e g' r
                | none =>
                  match tryMatchName eventKw dsn (c :: cs) with
                  | some r => renderPH eventKw e ++ rewriteSingleSpecF e g' r
                  | none => c :: rewriteSingleSpecF e g' cs)
          simp only [List.length_cons] at hs hf hg
          cases hm : tryMatchName fieldsKw dsn (c :: cs) with
          | some r =>
            have hlt : r.length < cs.length + 1 := by
              simpa using tryMatchName_some_length hm
            simp only [hm]
            rw [ih f' g' r (by omega) (by omega) (by omega)]
          | none =>
            simp only [hm]
            cases hm2 : tryMatchName eventKw dsn (c :: cs) with
            | some r =>
              have hlt : r.length < cs.length + 1 := by
                simpa using tryMatchName_some_length hm2
              simp only [hm2]
              rw [ih f' g' r (by omega) (by omega) (by omega)]
            | none =>
              simp only [hm2]
              rw [ih f' g' cs (by omega) (by omega) (by omega)]

theorem rewriteSingleSpec_nil (e : List Char) : rewriteSingleSpec e [] = [] := rfl

theorem rewriteSingleSpec_cons_fields {e : List Char} {c : Char} {cs r : List Char}
    (h : tryMatchName fieldsKw dsn (c :: cs) = some r) :
    rewriteSingleSpec e (c :: cs) = renderPH fieldsKw e ++ rewriteSingleSpec e r := by
  have hlt : r.length < cs.length + 1 := by simpa using tryMatchName_some_length h
  show rewriteSingleSpecF e (c :: cs).length (c :: cs) = _
  rw [List.length_cons]
  show (match tryMatchName fieldsKw dsn (c :: cs) with
        | some r => renderPH fieldsKw e ++ rewriteSingleSpecF e cs.length r
        | none =>
          match tryMatchName eventKw dsn (c :: cs) with
          | some r => renderPH eventKw e ++ rewriteSingleSpecF e cs.length r
          | none => c :: rewriteSingleSpecF e cs.length cs) = _
  simp only [h]
  rw [rewriteSingleSpecF_congr r.length cs.length r.length r le_rfl (by omega) le_rfl]
  rfl

theorem rewriteSingleSpec_cons_event {e : List Char} {c : Char} {cs r : List Char}
    (hf : tryMatchName fieldsKw dsn (c :: cs) = none)
    (h : tryMatchName eventKw dsn (c :: cs) = some r) :
    rewriteSingleSpec e (c :: cs) = renderPH eventKw e ++ rewriteSingleSpec e r := by
  have hlt : r.length < cs.length + 1 := by simpa using tryMatchName_some_length h
  show rewriteSingleSpecF e (c :: cs).length (c :: cs) = _
  rw [List.length_cons]
  show (match tryMatchName fieldsKw dsn (c :: cs) with
        | some r => renderPH fieldsKw e ++ rewriteSingleSpecF e cs.length r
        | none =>
          match tryMatchName eventKw dsn (c :: cs) with
          | some r => renderPH eventKw e ++ rewriteSingleSpecF e cs.length r
          | none => c :: rewriteSingleSpecF e cs.length cs) = _
  simp only [hf, h]
  rw [rewriteSingleSpecF_congr r.length cs.length r.length r le_rfl (by omega) le_rfl]
  rfl

theorem rewriteSingleSpec_cons_none {e : List Char} {c : Char} {cs : List Char}
    (hf : tryMatchName fieldsKw dsn (c :: cs) = none)
    (hev : tryMatchName eventKw dsn (c :: cs) = none) :
    rewriteSingleSpec e (c :: cs) = c :: rewriteSingleSpec e cs := by
  show rewriteSingleSpecF e (c :: cs).length (c :: cs) = _
  rw [List.length_cons]
  show (match tryMatchName fieldsKw dsn (c :: cs) with
        | some r => renderPH fieldsKw e ++ rewriteSingleSpecF e cs.length r
        | none =>
          match tryMatchName eventKw dsn (c :: cs) with
          | some r => renderPH eventKw e ++ rewriteSingleSpecF e cs.length r
          | none => c :: rewriteSingleSpecF e cs.length cs) = _
  simp only [hf, hev]
  rfl

/-! The scanner passes unchanged over text in which no match can start.
Every match starts with two opening braces, so brace-free text is inert. -/

theorem isGoSpace_ne_brace {c : Char} (h : isGoSpace c = true) : c ≠ '\x7b' := by
  intro hc; rw [hc] at h; exact absurd h (by decide)

theorem replaceTok_append_noBrace {kw repl : List Char} {a : List Char}
    (ha : ∀ c ∈ a, c ≠ '\x7b') (z : List Char) :
    replaceTok kw repl (a ++ z) = a ++ replaceTok kw repl z := by
  induction a with
  | nil => rfl
  | cons c cs ih =>
    rw [List.cons_append,
      replaceTok_cons_none (tryMatchName_none_head (ha c (List.mem_cons_self c cs)) (cs ++ z)),
      ih fun x hx => ha x (List.mem_cons_of_mem c hx), List.cons_append]

theorem replaceTok_event_skipF {repl : List Char} {b : List Char}
    (hb : ∀ c ∈ b, c ≠ '\x7b') (z : List Char) :
    replaceTok eventKw repl ('\x7b' :: '\x7b' :: 'f' :: (b ++ z)) =
      '\x7b' :: '\x7b' :: 'f' :: b ++ replaceTok eventKw repl z := by
  rw [replaceTok_cons_none (tryMatch_event_fieldsHead dsn _),
    replaceTok_cons_none (tryMatchName_none_head2 (by decide) _)]
  rw [show ('f' :: (b ++ z)) = ('f' :: b) ++ z from rfl]
  rw [replaceTok_append_noBrace ?hfb]
  · rfl
  · intro x hx
    rcases List.mem_cons.mp hx with hx | hx
    · subst hx; decide
    · exact hb x hx

theorem replaceTok_fields_skipE {repl : List Char} {b : List Char}
    (hb : ∀ c ∈ b, c ≠ '\x7b') (z : List Char) :
    replaceTok fieldsKw repl ('\x7b' :: '\x7b' :: 'e' :: (b ++ z)) =
      '\x7b' :: '\x7b' :: 'e' :: b ++ replaceTok fieldsKw repl z := by
  rw [replaceTok_cons_none (tryMatch_fields_eventHead dsn _),
    replaceTok_cons_none (tryMatchName_none_head2 (by decide) _)]
  rw [show ('e' :: (b ++ z)) = ('e' :: b) ++ z from rfl]
  rw [replaceTok_append_noBrace ?heb]
  · rfl
  · intro x hx
    rcases List.mem_cons.mp hx with hx | hx
    · subst hx; decide
    · exact hb x hx

theorem noBrace_renderF_body {e : List Char} (he : '\x7b' ∉ e) :
    ∀ c ∈ ('i' :: 'e' :: 'l' :: 'd' :: 's' :: ' ' :: '\x22' ::
      (e ++ ('\x22' :: '\x7d' :: '\x7d' :: []))), c ≠ '\x7b' := by
  intro c hc hx
  subst hx
  simp only [List.mem_cons, List.mem_append] at hc
  rcases hc with h | h | h | h | h | h | h | h
  · exact absurd h (by decide)
  · exact absurd h (by decide)
  · exact absurd h (by decide)
  · exact absurd h (by decide)
  · exact absurd h (by decide)
  · exact absurd h (by decide)
  · exact absurd h (by decide)
  · rcases h with h | h
    · exact he h
    · rcases h with h | h | h | h
      · exact absurd h (by decide)
      · exact absurd h (by decide)
      · exact absurd h (by decide)
      · exact absurd h (List.not_mem_nil _)

theorem replaceTok_event_renderPH {repl e : List Char} (he : '\x7b' ∉ e) (z : List Char) :
    replaceTok eventKw repl (renderPH fieldsKw e ++ z) =
      renderPH fieldsKw e ++ replaceTok eventKw repl z := by
  have hshape : renderPH fieldsKw e ++ z =
      '\x7b' :: '\x7b' :: 'f' :: (('i' :: 'e' :: 'l' :: 'd' :: 's' :: ' ' :: '\x22' ::
        (e ++ ('\x22' :: '\x7d' :: '\x7d' :: []))) ++ z) := by
    simp [renderPH, fieldsKw, strL, mkTail]
  rw [hshape, replaceTok_event_skipF (noBrace_renderF_body he) z]
  simp [renderPH, fieldsKw, strL, mkTail]

theorem noBrace_eventToken_body {w : List Char} (hsp : ∀ c ∈ w, isGoSpace c = true) :
    ∀ c ∈ ('v' :: 'e' :: 'n' :: 't' :: (w ++ mkTail dsn)), c ≠ '\x7b' := by
  intro c hc
  simp only [List.mem_cons, List.mem_append] at hc
  rcases hc with h | h | h | h | h
  · subst h; decide
  · subst h; decide
  · subst h; decide
  · subst h; decide
  · rcases h with h | h
    · exact isGoSpace_ne_brace (hsp c h)
    · intro hx
      subst hx
      exact absurd h (by decide)

theorem replaceTok_fields_eventToken {repl : List Char} {w : List Char}
    (hsp : ∀ c ∈ w, isGoSpace c = true) (r : List Char) :
    replaceTok fieldsKw repl ('\x7b' :: '\x7b' :: (eventKw ++ (w ++ (mkTail dsn ++ r)))) =
      ('\x7b' :: '\x7b' :: (eventKw ++ (w ++ mkTail dsn))) ++ replaceTok fieldsKw repl r := by
  have hshape : '\x7b' :: '\x7b' :: (eventKw ++ (w ++ (mkTail dsn ++ r))) =
      '\x7b' :: '\x7b' :: 'e' :: (('v' :: 'e' :: 'n' :: 't' :: (w ++ mkTail dsn)) ++ r) := by
    simp [eventKw, strL]
  rw [hshape, replaceTok_fields_skipE (noBrace_eventToken_body hsp) r]
  simp [eventKw, strL]

/-- If the output of the fields pass starts with a brace-free block `P`, the
input starts with the same block, character for character: no fields match
was taken inside `P`, since each inserted replacement starts with a brace. -/
theorem replaceTok_fields_lockstep {e : List Char} :
    ∀ (P : List Char), (∀ c ∈ P, c ≠ '\x7b') → ∀ (s z : List Char),
      replaceTok fieldsKw (renderPH fieldsKw e) s = P ++ z →
      ∃ z0, s = P ++ z0 ∧ replaceTok fieldsKw (renderPH fieldsKw e) z0 = z := by
  intro P
  induction P with
  | nil => exact fun _ s z h => ⟨s, rfl, h⟩
  | cons p ps ih =>
    intro hP s z h
    cases s with
    | nil => rw [replaceTok_nil] at h; exact absurd h (by simp)
    | cons c cs =>
      cases hm : tryMatchName fieldsKw dsn (c :: cs) with
      | some r =>
        rw [replaceTok_cons_some hm] at h
        have hhead : '\x7b' = p := by
          have := congrArg List.head? h
          simpa [renderPH] using this
        exact absurd hhead.symm (hP p (List.mem_cons_self p ps))
      | none =>
        rw [replaceTok_cons_none hm] at h
        injection h with h1 h2
        obtain ⟨z0, hz0, hz⟩ := ih (fun x hx => hP x (List.mem_cons_of_mem p hx)) cs z h2
        exact ⟨z0, by rw [h1, hz0, List.cons_append], hz⟩

/-- Composing the two source passes (all fields matches replaced, then all
event matches replaced in the result) agrees with the one-pass specification
rewrite, for any entity name free of opening braces. -/
theorem rewriteSingle_eq_specAux {e : List Char} (he : '\x7b' ∉ e) :
    ∀ (n : Nat) (s : List Char), s.length ≤ n →
      replaceTok eventKw (renderPH eventKw e) (replaceTok fieldsKw (renderPH fieldsKw e) s) =
        rewriteSingleSpec e s := by
  intro n
  induction n with
  | zero =>
    intro s hs
    have : s = [] := List.eq_nil_of_length_eq_zero (Nat.le_zero.mp hs)
    subst this; rfl
  | succ n ih =>
    intro s hs
    cases s with
    | nil => rfl
    | cons c cs =>
      simp only [List.length_cons] at hs
      cases hf : tryMatchName fieldsKw dsn (c :: cs) with
      | some r =>
        have hlt : r.length < cs.length + 1 := by simpa using tryMatchName_some_length hf
        rw [replaceTok_cons_some hf, replaceTok_event_renderPH he,
          ih r (by omega), rewriteSingleSpec_cons_fields hf]
      | none =>
        cases hev : tryMatchName eventKw dsn (c :: cs) with
        | some r =>
          have hlt : r.length < cs.length + 1 := by simpa using tryMatchName_some_length hev
          obtain ⟨w, hw, hsp, hshape⟩ := tryMatchName_some hev
          rw [hshape, replaceTok_fields_eventToken hsp]
          have hassoc : ('\x7b' :: '\x7b' :: (eventKw ++ (w ++ mkTail dsn))) ++
              replaceTok fieldsKw (renderPH fieldsKw e) r =
              '\x7b' :: '\x7b' :: (eventKw ++ (w ++ (mkTail dsn ++
                replaceTok fieldsKw (renderPH fieldsKw e) r))) := by
            simp
          have hf2 : tryMatchName fieldsKw dsn
              ('\x7b' :: '\x7b' :: (eventKw ++ (w ++ (mkTail dsn ++ r)))) = none := by
            rw [← hshape]; exact hf
          have hev2 : tryMatchName eventKw dsn
              ('\x7b' :: '\x7b' :: (eventKw ++ (w ++ (mkTail dsn ++ r)))) = some r := by
            rw [← hshape]; exact hev
          rw [hassoc, replaceTok_cons_some (tryMatchName_token hw hsp _),
            ih r (by omega), rewriteSingleSpec_cons_event hf2 hev2]
        | none =>
          rw [replaceTok_cons_none hf]
          have hev2 : tryMatchName eventKw dsn
              (c :: replaceTok fieldsKw (renderPH fieldsKw e) cs) = none := by
            cases h2 : tryMatchName eventKw dsn
                (c :: replaceTok fieldsKw (renderPH fieldsKw e) cs) with
            | none => rfl
            | some r' =>
              exfalso
              obtain ⟨w, hw, hsp, hshape⟩ := tryMatchName_some h2
              injection hshape with hc hrest
              cases cs with
              | nil => rw [replaceTok_nil] at hrest; exact absurd hrest (by simp)
              | cons c2 cs2 =>
                cases hm2 : tryMatchName fieldsKw dsn (c2 :: cs2) with
                | some r2 =>
                  rw [replaceTok_cons_some hm2] at hrest
                  rw [show renderPH fieldsKw e = '\x7b' :: '\x7b' :: 'f' ::
                      ('i' :: 'e' :: 'l' :: 'd' :: 's' :: ' ' :: mkTail e) from rfl] at hrest
                  rw [show eventKw = 'e' :: 'v' :: 'e' :: 'n' :: 't' :: [] from rfl] at hrest
                  simp only [List.cons_append, List.cons.injEq] at hrest
                  exact absurd hrest.2.1 (by decide)
                | none =>
                  rw [replaceTok_cons_none hm2] at hrest
                  injection hrest with hc2 hrest2
                  have hP : ∀ x ∈ (eventKw ++ (w ++ mkTail dsn)), x ≠ '\x7b' := by
                    intro x hx
                    simp only [List.mem_append] at hx
                    rcases hx with hx | hx | hx
                    · intro hb
                      subst hb
                      exact absurd hx (by decide)
                    · exact isGoSpace_ne_brace (hsp x hx)
                    · intro hb
                      subst hb
                      exact absurd hx (by decide)
                  obtain ⟨z0, hz0, -⟩ := replaceTok_fields_lockstep
                    (eventKw ++ (w ++ mkTail dsn)) hP cs2 r' (by rw [hrest2]; simp)
                  have : tryMatchName eventKw dsn (c :: c2 :: cs2) = some z0 := by
                    rw [hc, hc2, hz0]
                    rw [show ('\x7b' : Char) :: '\x7b' :: ((eventKw ++ (w ++ mkTail dsn)) ++ z0) =
                      '\x7b' :: '\x7b' :: (eventKw ++ (w ++ (mkTail dsn ++ z0))) by simp]
                    exact tryMatchName_token hw hsp z0
                  rw [this] at hev; cases hev
          rw [replaceTok_cons_none hev2, ih cs (by omega),
            rewriteSingleSpec_cons_none hf hev]

/-- For brace-free entity names the composed source rewrite equals the
one-pass specification rewrite on every document. -/
theorem rewriteSingle_eq_spec {e : List Char} (he : '\x7b' ∉ e) (s : List Char) :
    rewriteSingle e s = rewriteSingleSpec e s :=
  rewriteSingle_eq_specAux he s.length s le_rfl

/-! Helper facts for the remaining claims. -/

theorem collectDirs_eq_filter_map (entries : List DirEntry) :
    collectDirs entries = (entries.filter (fun en => en.isDir)).map (fun en => en.name) := by
  induction entries with
  | nil => rfl
  | cons a t ih =>
    by_cases h : a.isDir
    · simp [collectDirs, List.filter_cons, h, ih]
    · simp [collectDirs, List.filter_cons, h, ih]

/-! The claims. -/

/-- C1: for every document `d` and every entity set containing exactly one
entity name `e` (a non-empty identifier string, per the spec's data model),
the rewriter replaces every structurally matched generic fields placeholder
by the fields placeholder naming `e` and every generic event placeholder by
the event placeholder naming `e`, preserving all other text byte-for-byte:
its output equals the one-pass specification rewrite `rewriteSingleSpec`. -/
theorem c1_single_entity_rewrite (d e : List Char) (he : isEntityName e) :
    applyDataStreamPlaceholders d [e] = rewriteSingleSpec e d := by
  have hbr : '\x7b' ∉ e := fun hm => absurd (he.2 '\x7b' hm) (by decide)
  show rewriteSingle e d = rewriteSingleSpec e d
  exact rewriteSingle_eq_spec hbr d

theorem c1_single_entity_rewrite_run :
    isEntityName (strL "logs") ∧
      applyDataStreamPlaceholders
        (strL "A \x7b\x7bfields \x22data_stream_name\x22\x7d\x7d B \x7b\x7bevent\t\x22data_stream_name\x22\x7d\x7d C")
        [strL "logs"] =
      rewriteSingleSpec (strL "logs")
        (strL "A \x7b\x7bfields \x22data_stream_name\x22\x7d\x7d B \x7b\x7bevent\t\x22data_stream_name\x22\x7d\x7d C") :=
  ⟨by decide, c1_single_entity_rewrite _ _ (by decide)⟩

/-- C2: with at least two entities, a document that splits into exactly two
parts on the preferred header and whose remainder splits into exactly two
parts on the sample header is reassembled as: pre-header prefix, re-emitted
fields header, one fields sub-block per entity in order, re-emitted sample
header, one event sub-block per entity in order, then the text that followed
the original sample header. -/
theorem c2_multi_entity_reassembly (d p q t0 t1 e0 e1 : List Char) (es : List (List Char))
    (h1 : splitSep ecsHeader d = [p, q])
    (h2 : splitSep sampleHeader q = [t0, t1]) :
    applyDataStreamPlaceholders d (e0 :: e1 :: es) =
      p ++ (ecsHeader ++ nl2) ++ (fieldsSection (e0 :: e1 :: es) ++
        ((sampleHeader ++ nl2) ++ (eventSection (e0 :: e1 :: es) ++ t1))) := by
  unfold applyDataStreamPlaceholders
  rw [h1, if_pos (show ([p, q] : List (List Char)).length = 2 from rfl)]
  show multiBody (e0 :: e1 :: es) p q = _
  unfold multiBody multiTail
  rw [h2]

theorem c2_multi_entity_reassembly_run :
    splitSep ecsHeader (strL "P### ECS field ReferenceM### Sample EventS") =
      [strL "P", strL "M### Sample EventS"] ∧
    splitSep sampleHeader (strL "M### Sample EventS") = [strL "M", strL "S"] ∧
    applyDataStreamPlaceholders (strL "P### ECS field ReferenceM### Sample EventS")
        [strL "x", strL "y"] =
      strL "P" ++ (ecsHeader ++ nl2) ++ (fieldsSection [strL "x", strL "y"] ++
        ((sampleHeader ++ nl2) ++ (eventSection [strL "x", strL "y"] ++ strL "S"))) :=
  ⟨by decide, by decide,
    c2_multi_entity_reassembly (strL "P### ECS field ReferenceM### Sample EventS")
      (strL "P") (strL "M### Sample EventS") (strL "M") (strL "S")
      (strL "x") (strL "y") [] (by decide) (by decide)⟩

/-- C3: rewriting with an empty entity set returns the document unchanged. -/
theorem c3_empty_entity_set_identity (d : List Char) :
    applyDataStreamPlaceholders d [] = d := rfl

/-- C4: with at least two entities and neither header splitting the document
into exactly two parts, the rewriter returns exactly the single-entity
result for the first entity of the set; both sides are values of the same
pure function of `(d, entities)`, so identical inputs give identical
outputs. -/
theorem c4_fallback_uses_first_entity (d e0 e1 : List Char) (es : List (List Char))
    (h1 : (splitSep ecsHeader d).length ≠ 2)
    (h2 : (splitSep sampleHeader d).length ≠ 2) :
    applyDataStreamPlaceholders d (e0 :: e1 :: es) = applyDataStreamPlaceholders d [e0] := by
  unfold applyDataStreamPlaceholders
  rw [if_neg h1]
  cases hsp : splitSep sampleHeader d with
  | nil => rfl
  | cons a t1 =>
    cases t1 with
    | nil => rfl
    | cons b t2 =>
      cases t2 with
      | nil => exact absurd (by rw [hsp]; rfl : (splitSep sampleHeader d).length = 2) h2
      | cons c' t3 => rfl

theorem c4_fallback_uses_first_entity_run :
    (splitSep ecsHeader (strL "plain document, no headers")).length ≠ 2 ∧
    (splitSep sampleHeader (strL "plain document, no headers")).length ≠ 2 ∧
    applyDataStreamPlaceholders (strL "plain document, no headers")
        [strL "x", strL "y", strL "z"] =
      applyDataStreamPlaceholders (strL "plain document, no headers") [strL "x"] :=
  ⟨by decide, by decide,
    c4_fallback_uses_first_entity _ _ _ _ (by decide) (by decide)⟩

/-- C5 as stated is false on the code: on the document `A### Sample EventB`,
with two entities, the split that succeeds consumes the fallback header
`### Sample Event`, yet the output re-emits `### ECS field Reference`; the
sample header occurs nowhere in the output (its sample-header split has a
single part), so the consumed header is not the one re-emitted. -/
theorem c5_counterexample_header_swap :
    (splitSep ecsHeader (strL "A### Sample EventB")).length = 1 ∧
    splitSep sampleHeader (strL "A### Sample EventB") = [strL "A", strL "B"] ∧
    applyDataStreamPlaceholders (strL "A### Sample EventB") [strL "x", strL "y"] =
      strL "A### ECS field Reference\n\n#### x\n\n\x7b\x7bfields \x22x\x22\x7d\x7d\n\n#### y\n\n\x7b\x7bfields \x22y\x22\x7d\x7d\n\nB" ∧
    (splitSep sampleHeader
      (applyDataStreamPlaceholders (strL "A### Sample EventB") [strL "x", strL "y"])).length = 1 :=
  ⟨by decide, by decide, by decide, by decide⟩

/-- C5 amended: with at least two entities, whenever the section split
succeeds — on the preferred `### ECS field Reference` header, or on the
fallback `### Sample Event` header after the preferred one failed — the
header re-emitted in the reassembled output is always
`### ECS field Reference`, regardless of which header was consumed. -/
theorem c5_amended_always_ecs_header (d p q e0 e1 : List Char) (es : List (List Char))
    (h : splitSep ecsHeader d = [p, q] ∨
      ((splitSep ecsHeader d).length ≠ 2 ∧ splitSep sampleHeader d = [p, q])) :
    applyDataStreamPlaceholders d (e0 :: e1 :: es) =
      p ++ (ecsHeader ++ nl2) ++
        (fieldsSection (e0 :: e1 :: es) ++ multiTail (e0 :: e1 :: es) q) := by
  unfold applyDataStreamPlaceholders
  rcases h with h | ⟨hn, h⟩
  · rw [h, if_pos (show ([p, q] : List (List Char)).length = 2 from rfl)]
    rfl
  · rw [if_neg hn, h]
    rfl

theorem c5_amended_always_ecs_header_run :
    ((splitSep ecsHeader (strL "A### Sample EventB")).length ≠ 2 ∧
      splitSep sampleHeader (strL "A### Sample EventB") = [strL "A", strL "B"]) ∧
    applyDataStreamPlaceholders (strL "A### Sample EventB") [strL "x", strL "y"] =
      strL "A" ++ (ecsHeader ++ nl2) ++
        (fieldsSection [strL "x", strL "y"] ++ multiTail [strL "x", strL "y"] (strL "B")) :=
  ⟨⟨by decide, by decide⟩,
    c5_amended_always_ecs_header _ _ _ _ _ _ (Or.inr ⟨by decide, by decide⟩)⟩

/-- C6: with at least two entities, when the first split succeeds but the
remainder does not split into exactly two parts on the sample header, the
rewriter appends the remainder after the fields sub-blocks unmodified; in
particular any generic event placeholder text inside the remainder is left
in generic, unrewritten form. -/
theorem c6_unsplit_remainder_verbatim (d p q e0 e1 : List Char) (es : List (List Char))
    (h1 : splitSep ecsHeader d = [p, q])
    (h2 : (splitSep sampleHeader q).length ≠ 2) :
    applyDataStreamPlaceholders d (e0 :: e1 :: es) =
      p ++ (ecsHeader ++ nl2) ++ (fieldsSection (e0 :: e1 :: es) ++ q) := by
  unfold applyDataStreamPlaceholders
  rw [h1, if_pos (show ([p, q] : List (List Char)).length = 2 from rfl)]
  show multiBody (e0 :: e1 :: es) p q = _
  unfold multiBody
  have ht : multiTail (e0 :: e1 :: es) q = q := by
    unfold multiTail
    cases hsp : splitSep sampleHeader q with
    | nil => rfl
    | cons a t1 =>
      cases t1 with
      | nil => rfl
      | cons b t2 =>
        cases t2 with
        | nil => exact absurd (by rw [hsp]; rfl : (splitSep sampleHeader q).length = 2) h2
        | cons c' t3 => rfl
  rw [ht]

theorem c6_unsplit_remainder_verbatim_run :
    splitSep ecsHeader (strL "A### ECS field ReferenceB \x7b\x7bevent \x22data_stream_name\x22\x7d\x7d C") =
      [strL "A", strL "B \x7b\x7bevent \x22data_stream_name\x22\x7d\x7d C"] ∧
    (splitSep sampleHeader (strL "B \x7b\x7bevent \x22data_stream_name\x22\x7d\x7d C")).length ≠ 2 ∧
    applyDataStreamPlaceholders
        (strL "A### ECS field ReferenceB \x7b\x7bevent \x22data_stream_name\x22\x7d\x7d C")
        [strL "x", strL "y"] =
      strL "A" ++ (ecsHeader ++ nl2) ++ (fieldsSection [strL "x", strL "y"] ++
        strL "B \x7b\x7bevent \x22data_stream_name\x22\x7d\x7d C") :=
  ⟨by decide, by decide,
    c6_unsplit_remainder_verbatim _ _ _ _ _ _ (by decide) (by decide)⟩

/-- C7: the patch generator applied to two identical documents returns the
empty patch, for every file path and document. -/
theorem c7_identical_documents_empty_patch (p a : List Char) :
    generatePatch p a a = [] := by
  unfold generatePatch getUnifiedDiffString
  rw [if_pos rfl]

/-- C8: discovery returns an empty entity set and no error when the
`data_stream` subdirectory is absent; when the subdirectory exists and its
listing succeeds, it returns exactly the names of the immediate
subdirectories, plain files ignored, in listing order. -/
theorem c8_discovery_behaviour (fs : PkgFS) :
    (fs.statExists = false → findDataStreams fs = .ok []) ∧
    (∀ entries, fs.statExists = true → fs.readDirResult = .ok entries →
      findDataStreams fs = .ok ((entries.filter (fun en => en.isDir)).map
        (fun en => en.name))) := by
  constructor
  · intro h
    simp [findDataStreams, h]
  · intro entries hs hr
    simp [findDataStreams, hs, hr, collectDirs_eq_filter_map]

theorem c8_discovery_behaviour_run :
    findDataStreams ⟨false, .ok []⟩ = .ok [] ∧
    findDataStreams
        ⟨true, .ok [⟨strL "x", true⟩, ⟨strL "afile", false⟩, ⟨strL "y", true⟩]⟩ =
      .ok [strL "x", strL "y"] :=
  ⟨(c8_discovery_behaviour ⟨false, .ok []⟩).1 rfl,
    ((c8_discovery_behaviour
        ⟨true, .ok [⟨strL "x", true⟩, ⟨strL "afile", false⟩, ⟨strL "y", true⟩]⟩).2
      [⟨strL "x", true⟩, ⟨strL "afile", false⟩, ⟨strL "y", true⟩] rfl rfl).trans rfl⟩

/-- C9: every placeholder the rewriter renders — the single-entity
replacements `renderPH`, and the same rendered placeholders inside the
multi-entity fields and event sub-blocks — is recoverable by the same
structural matching pattern used to detect generic placeholders, with the
entity name in the quoted-name position: the matcher for name `e` succeeds
on the rendered placeholder in any context and consumes exactly it. -/
theorem c9_rendered_placeholder_roundtrip (e z : List Char) :
    tryMatchName fieldsKw e (renderPH fieldsKw e ++ z) = some z ∧
    tryMatchName eventKw e (renderPH eventKw e ++ z) = some z ∧
    fieldsBlock e = (strL "#### " ++ e ++ nl2) ++ (renderPH fieldsKw e ++ nl2) ∧
    eventBlock e = (strL "#### " ++ e ++ nl2) ++ (renderPH eventKw e ++ nl2) := by
  refine ⟨?_, ?_, by simp [fieldsBlock], by simp [eventBlock]⟩
  · have hshape : renderPH fieldsKw e ++ z =
        '\x7b' :: '\x7b' :: (fieldsKw ++ ([' '] ++ (mkTail e ++ z))) := by
      simp [renderPH]
    rw [hshape]
    exact tryMatchName_token (by decide)
      (by intro c hc; simp only [List.mem_singleton] at hc; subst hc; decide) z
  · have hshape : renderPH eventKw e ++ z =
        '\x7b' :: '\x7b' :: (eventKw ++ ([' '] ++ (mkTail e ++ z))) := by
      simp [renderPH]
    rw [hshape]
    exact tryMatchName_token (by decide)
      (by intro c hc; simp only [List.mem_singleton] at hc; subst hc; decide) z

/-- C10: in the single-entity rewrite, a generic token is matched and
replaced exactly when the whitespace variation lies between the keyword and
the quoted name (any non-empty run of whitespace); tokens with extra
whitespace after the opening braces, before the closing braces, or inside
the quotes are not matched and are returned unchanged. -/
theorem c10_whitespace_position (e w : List Char) (he : isEntityName e)
    (hw : w ≠ []) (hsp : ∀ c ∈ w, isGoSpace c = true) :
    applyDataStreamPlaceholders ('\x7b' :: '\x7b' :: (fieldsKw ++ (w ++ mkTail dsn))) [e] =
      renderPH fieldsKw e ∧
    applyDataStreamPlaceholders (strL "\x7b\x7b fields \x22data_stream_name\x22\x7d\x7d")
        [strL "x"] = strL "\x7b\x7b fields \x22data_stream_name\x22\x7d\x7d" ∧
    applyDataStreamPlaceholders (strL "\x7b\x7bfields \x22data_stream_name\x22 \x7d\x7d")
        [strL "x"] = strL "\x7b\x7bfields \x22data_stream_name\x22 \x7d\x7d" ∧
    applyDataStreamPlaceholders (strL "\x7b\x7bfields \x22 data_stream_name\x22\x7d\x7d")
        [strL "x"] = strL "\x7b\x7bfields \x22 data_stream_name\x22\x7d\x7d" := by
  refine ⟨?_, by decide, by decide, by decide⟩
  have hbr : '\x7b' ∉ e := fun hm => absurd (he.2 '\x7b' hm) (by decide)
  have htok : tryMatchName fieldsKw dsn
      ('\x7b' :: '\x7b' :: (fieldsKw ++ (w ++ mkTail dsn))) = some [] := by
    have h := @tryMatchName_token fieldsKw dsn w hw hsp []
    simpa using h
  show rewriteSingle e _ = _
  unfold rewriteSingle
  rw [replaceTok_cons_some htok, replaceTok_nil, List.append_nil]
  have h2 := @replaceTok_event_renderPH (renderPH eventKw e) e hbr []
  simp only [List.append_nil, replaceTok_nil] at h2
  exact h2

theorem c10_whitespace_position_run :
    (isEntityName (strL "x") ∧ ([' ', ' ', ' '] : List Char) ≠ [] ∧
      (∀ c ∈ ([' ', ' ', ' '] : List Char), isGoSpace c = true)) ∧
    applyDataStreamPlaceholders
        ('\x7b' :: '\x7b' :: (fieldsKw ++ (([' ', ' ', ' '] : List Char) ++ mkTail dsn)))
        [strL "x"] = renderPH fieldsKw (strL "x") :=
  ⟨⟨by decide, by decide, by decide⟩,
    (c10_whitespace_position (strL "x") [' ', ' ', ' ']
      (by decide) (by decide) (by decide)).1⟩

end DocsTemplateUpdate
